import Mathlib

/-!
Verification development for `group-specific-variants.py`.

The script encodes a nucleotide alignment as an integer matrix, splits its
rows into an in-group and an out-group per clade, scans columns for
in-group-uniform definite nucleotides, prunes candidates against the
out-group by one of four criteria, and writes one report file per group.

Codes are natural numbers 0..6 (T C A G - N ?).  The alignment matrix is a
list of rows, each row a list of codes.  Fallible dictionary/list accesses
of the source are modelled with Option; the per-group computation returns
the list of written lines (without trailing newlines).
-/

namespace GroupSpecificVariants

/-- Encoding of alignment characters as integers (the `nt2int` dictionary of
the source).  A character outside the seven-symbol alphabet has no code: the
source dict lookup raises KeyError, modelled as `none`. -/
def nt2int (c : Char) : Option Nat :=
  if c = 'T' then some 0
  else if c = 'C' then some 1
  else if c = 'A' then some 2
  else if c = 'G' then some 3
  else if c = '-' then some 4
  else if c = 'N' then some 5
  else if c = '?' then some 6
  else none

/-- Decoding of integer codes back to characters (the `int2nt` dictionary of
the source). -/
def int2nt (n : Nat) : Option Char :=
  if n = 0 then some 'T'
  else if n = 1 then some 'C'
  else if n = 2 then some 'A'
  else if n = 3 then some 'G'
  else if n = 4 then some '-'
  else if n = 5 then some 'N'
  else if n = 6 then some '?'
  else none

/-- In-group row indices:
`ingr_ind = [sq_name.index(x) for x in group_list[g] if x in sq_name]`.
Member names missing from `sq_name` are silently skipped; matched names
contribute indices in the order they appear in the group file. -/
def ingrInd (sqName : List String) (members : List String) : List Nat :=
  members.filterMap (fun x => if x ∈ sqName then some (sqName.indexOf x) else none)

/-- Out-group row indices:
`outgr_ind = [x for x in range(num_sq) if x not in ingr_ind]`. -/
def outgrInd (numSq : Nat) (ingr : List Nat) : List Nat :=
  (List.range numSq).filter (fun x => decide (x ∉ ingr))

/-- Matrix entry `aln_np[i, j]`. -/
def entry (aln : List (List Nat)) (i j : Nat) : Nat :=
  (aln.getD i []).getD j 0

/-- The column-`j` values of the rows selected by `rows`
(`aln_np[rows, :][:, j]`). -/
def colVals (aln : List (List Nat)) (rows : List Nat) (j : Nat) : List Nat :=
  rows.map (fun i => entry aln i j)

/-- Site-scanner test for one column:
`unique = np.unique(site); if (len(unique) == 1) and (unique[0] < 4): count[j] = unique[0]`.
`List.dedup` plays the role of `np.unique` (its order is irrelevant to every
use: length-one test, membership, length, any-greater-than-3). -/
def siteCand (col : List Nat) : Option Nat :=
  if col.dedup.length = 1 ∧ col.dedup.getD 0 0 < 4 then some (col.dedup.getD 0 0)
  else none

/-- The candidate-site table `count` built by the site scanner, as an
association list in increasing column order (a Python dict keeps insertion
order; the loop runs `for j in range(num_site)`). -/
def candidates (aln : List (List Nat)) (ingr : List Nat) (numSite : Nat) :
    List (Nat × Nat) :=
  (List.range numSite).filterMap
    (fun j => (siteCand (colVals aln ingr j)).map (fun c => (j, c)))

/-- The four-way elif chain deciding whether a candidate site is appended to
`rm`.  `nt` is the in-group code, `u` the distinct out-group codes
(`np.unique(aln_outgr[:, site])`).  Any method outside 1..4 falls through the
chain and removes nothing. -/
def removeSite (method nt : Nat) (u : List Nat) : Bool :=
  if method = 1 ∧ nt ∈ u then true
  else if method = 2 ∧ (nt ∈ u ∨ ∃ x ∈ u, 3 < x) then true
  else if method = 3 ∧ (nt ∈ u ∨ 1 < u.length) then true
  else if method = 4 ∧ (nt ∈ u ∨ 1 < u.length ∨ ∃ x ∈ u, 3 < x) then true
  else false

/-- The list `rm` of candidate sites the exclusivity filter marks for
removal, in table order. -/
def rmSites (aln : List (List Nat)) (cand : List (Nat × Nat)) (outgr : List Nat)
    (method : Nat) : List Nat :=
  cand.filterMap
    (fun sc => if removeSite method sc.2 ((colVals aln outgr sc.1).dedup)
               then some sc.1 else none)

/-- The candidate table after `for i in range(len(rm)): del count[rm[i]]`. -/
def surviving (aln : List (List Nat)) (cand : List (Nat × Nat)) (outgr : List Nat)
    (method : Nat) : List (Nat × Nat) :=
  cand.filter (fun sc => decide (sc.1 ∉ rmSites aln cand outgr method))

/-- Reference character at 1-based position `p`: `ref_sq[p - 1]`.  Position 0
(which in Python would wrap to index -1) is treated as a failed access; the
positions appearing in the claims are ≥ 1. -/
def refCharAt (refSq : List Char) (p : Nat) : Option Char :=
  if p = 0 then none else refSq.get? (p - 1)

/-- One output line for surviving column `x`:
`str(pos[i]) + ' ' + ref_nt[i] + '/' + gr_nt[i]` with
`pos = ref_pos[x]`, `ref_nt = ref_sq[pos - 1].seq`, `gr_nt = int2nt[count[x]]`.
The source computes the three lists in separate passes; over Option the
fused per-key computation yields the same result. -/
def lineFor (refPos : List Nat) (refSq : List Char) (count : List (Nat × Nat))
    (x : Nat) : Option String :=
  (refPos.get? x).bind (fun p =>
    (refCharAt refSq p).bind (fun r =>
      (List.lookup x count).bind (fun c =>
        (int2nt c).map (fun g =>
          toString p ++ " " ++ r.toString ++ "/" ++ g.toString))))

/-- The whole per-group report body: header line `str(len(count))` followed
by one line per surviving site, keys in `sorted(count)` order.  `none` models
an uncaught exception while building the report. -/
def reportFor (aln : List (List Nat)) (ingr outgr : List Nat)
    (numSite method : Nat) (refPos : List Nat) (refSq : List Char) :
    Option (List String) :=
  let count := surviving aln (candidates aln ingr numSite) outgr method
  let countKeys := List.insertionSort (fun a b => a ≤ b) (count.map Prod.fst)
  (countKeys.mapM (lineFor refPos refSq count)).map
    (fun lines => toString count.length :: lines)

/-- The per-group body of the main loop, from the index computation to the
written lines. -/
def processGroup (aln : List (List Nat)) (sqName : List String) (numSite : Nat)
    (members : List String) (refPos : List Nat) (refSq : List Char)
    (method : Nat) : Option (List String) :=
  reportFor aln (ingrInd sqName members)
    (outgrInd sqName.length (ingrInd sqName members)) numSite method refPos refSq

/-- Python exceptions that the argument-checking code can raise. -/
inductive PyExcept where
  | nameError (name : String) : PyExcept
  | assertionError (msg : String) : PyExcept
  | systemExit (msg : String) : PyExcept
deriving DecidableEq, Repr

/-- The argument checks at the top of `main`.  Each failing check executes
`sys.exit(msg)`, but the module never imports `sys`, so evaluating the name
`sys` raises `NameError: name 'sys' is not defined` before the message is
ever built (for the method branch, even building the message
`'ERROR: invalid method: ' + args.method` would itself be a TypeError). -/
def checkArgs (groupDirIsDir alnIsFile refIsFile posIsFile : Bool)
    (method : Int) : Except PyExcept Unit :=
  if !groupDirIsDir then .error (.nameError "sys")
  else if !alnIsFile then .error (.nameError "sys")
  else if !refIsFile then .error (.nameError "sys")
  else if !posIsFile then .error (.nameError "sys")
  else if method ∉ ([1, 2, 3, 4] : List Int) then .error (.nameError "sys")
  else .ok ()

/-- The sanity check of `get_ref_sq`:
`assert len(ref_name) == 1, "error: reference file contains more than one sequence"`. -/
def getRefSqCheck (refNames : List String) : Except PyExcept Unit :=
  if refNames.length = 1 then .ok ()
  else .error (.assertionError "error: reference file contains more than one sequence")

/-- The removal condition as the specification states it, per method, over
the raw out-group column: `c ∈ U` for the set `U` of distinct out-group codes
is membership in the column, `U` has more than one element means two distinct
values occur, and a code ≥ 4 in `U` means a value ≥ 4 occurs.  Stated
separately from `removeSite` so the two can be compared. -/
def specRemoves (method c : Nat) (outCol : List Nat) : Prop :=
  (method = 1 ∧ c ∈ outCol) ∨
  (method = 2 ∧ (c ∈ outCol ∨ ∃ x ∈ outCol, 4 ≤ x)) ∨
  (method = 3 ∧ (c ∈ outCol ∨ ∃ x ∈ outCol, ∃ y ∈ outCol, x ≠ y)) ∨
  (method = 4 ∧ (c ∈ outCol ∨ (∃ x ∈ outCol, ∃ y ∈ outCol, x ≠ y) ∨
    ∃ x ∈ outCol, 4 ≤ x))

/-! Helper lemmas about the embedded definitions. -/

lemma dedup_eq_singleton {l : List Nat} {c : Nat} :
    l.dedup = [c] ↔ l ≠ [] ∧ ∀ x ∈ l, x = c := by
  constructor
  · intro h
    refine ⟨?_, ?_⟩
    · intro hl
      rw [hl] at h
      simp at h
    · intro x hx
      have hx' : x ∈ l.dedup := List.mem_dedup.2 hx
      rw [h] at hx'
      simpa using hx'
  · rintro ⟨hne, hall⟩
    have hc : c ∈ l.dedup := by
      rcases List.exists_mem_of_ne_nil l hne with ⟨x, hx⟩
      have hxc := hall x hx
      subst hxc
      exact List.mem_dedup.2 hx
    have hnd := l.nodup_dedup
    have hsub : ∀ x ∈ l.dedup, x = c := fun x hx => hall x (List.mem_dedup.1 hx)
    rcases hd : l.dedup with _ | ⟨a, _ | ⟨b, t⟩⟩
    · rw [hd] at hc
      simp at hc
    · rw [hd] at hsub
      have ha := hsub a (by simp)
      rw [ha]
    · rw [hd] at hnd hsub
      have ha := hsub a (by simp)
      have hb := hsub b (by simp)
      rcases List.nodup_cons.1 hnd with ⟨hna, _⟩
      exact absurd (by rw [ha, ← hb]; exact List.mem_cons_self b t) hna

lemma one_lt_dedup_length {l : List Nat} :
    1 < l.dedup.length ↔ ∃ x ∈ l, ∃ y ∈ l, x ≠ y := by
  constructor
  · intro h
    rcases hd : l.dedup with _ | ⟨a, _ | ⟨b, t⟩⟩ <;> rw [hd] at h
    · simp at h
    · simp at h
    · have hnd := l.nodup_dedup
      rw [hd, List.nodup_cons] at hnd
      refine ⟨a, List.mem_dedup.1 (by rw [hd]; simp),
        b, List.mem_dedup.1 (by rw [hd]; simp), ?_⟩
      intro hab
      exact hnd.1 (by rw [hab]; simp)
  · rintro ⟨x, hx, y, hy, hxy⟩
    by_contra h
    push_neg at h
    have hx' : x ∈ l.dedup := List.mem_dedup.2 hx
    have hy' : y ∈ l.dedup := List.mem_dedup.2 hy
    rcases hd : l.dedup with _ | ⟨a, _ | ⟨b, t⟩⟩ <;> rw [hd] at hx' hy' h
    · simp at hx'
    · simp at hx' hy'
      exact hxy (hx'.trans hy'.symm)
    · simp at h

lemma siteCand_eq_some {col : List Nat} {c : Nat} :
    siteCand col = some c ↔ col ≠ [] ∧ (∀ x ∈ col, x = c) ∧ c < 4 := by
  unfold siteCand
  constructor
  · intro h
    split_ifs at h with hcond
    · obtain ⟨hlen, h4⟩ := hcond
      rcases List.length_eq_one.1 hlen with ⟨a, ha⟩
      rw [ha] at h h4
      simp only [List.getD, List.get?_cons_zero, Option.getD_some,
        Option.some.injEq] at h h4
      subst h
      rcases dedup_eq_singleton.1 ha with ⟨hne, hall⟩
      exact ⟨hne, hall, h4⟩
  · rintro ⟨hne, hall, h4⟩
    have hd : col.dedup = [c] := dedup_eq_singleton.2 ⟨hne, hall⟩
    rw [hd]
    simp [h4]

lemma mem_candidates {aln : List (List Nat)} {ingr : List Nat} {numSite j c : Nat} :
    (j, c) ∈ candidates aln ingr numSite ↔
      j < numSite ∧ siteCand (colVals aln ingr j) = some c := by
  unfold candidates
  rw [List.mem_filterMap]
  constructor
  · rintro ⟨j', hj', hf⟩
    rcases hs : siteCand (colVals aln ingr j') with _ | c' <;> rw [hs] at hf
    · simp at hf
    · simp only [Option.map_some', Option.some.injEq, Prod.mk.injEq] at hf
      obtain ⟨rfl, rfl⟩ := hf
      exact ⟨List.mem_range.1 hj', hs⟩
  · rintro ⟨hj, hs⟩
    exact ⟨j, List.mem_range.2 hj, by rw [hs]; rfl⟩

lemma candidates_val_lt {aln : List (List Nat)} {ingr : List Nat}
    {numSite j c : Nat} (h : (j, c) ∈ candidates aln ingr numSite) : c < 4 :=
  ((siteCand_eq_some.1 (mem_candidates.1 h).2).2).2

lemma candidates_val_unique {aln : List (List Nat)} {ingr : List Nat}
    {numSite j c c' : Nat} (h1 : (j, c) ∈ candidates aln ingr numSite)
    (h2 : (j, c') ∈ candidates aln ingr numSite) : c = c' := by
  have e1 := (mem_candidates.1 h1).2
  have e2 := (mem_candidates.1 h2).2
  rw [e1] at e2
  exact Option.some.inj e2

lemma removeSite_eq_true {m nt : Nat} {u : List Nat} :
    removeSite m nt u = true ↔
      (m = 1 ∧ nt ∈ u) ∨
      (m = 2 ∧ (nt ∈ u ∨ ∃ x ∈ u, 3 < x)) ∨
      (m = 3 ∧ (nt ∈ u ∨ 1 < u.length)) ∨
      (m = 4 ∧ (nt ∈ u ∨ 1 < u.length ∨ ∃ x ∈ u, 3 < x)) := by
  unfold removeSite
  split_ifs with h1 h2 h3 h4
  · exact iff_of_true rfl (Or.inl h1)
  · exact iff_of_true rfl (Or.inr (Or.inl h2))
  · exact iff_of_true rfl (Or.inr (Or.inr (Or.inl h3)))
  · exact iff_of_true rfl (Or.inr (Or.inr (Or.inr h4)))
  · refine iff_of_false (by simp) ?_
    rintro (h | h | h | h)
    · exact h1 h
    · exact h2 h
    · exact h3 h
    · exact h4 h

lemma removeSite_one {nt : Nat} {u : List Nat} :
    removeSite 1 nt u = true ↔ nt ∈ u := by
  rw [removeSite_eq_true]
  norm_num

lemma removeSite_two {nt : Nat} {u : List Nat} :
    removeSite 2 nt u = true ↔ (nt ∈ u ∨ ∃ x ∈ u, 3 < x) := by
  rw [removeSite_eq_true]
  norm_num

lemma removeSite_three {nt : Nat} {u : List Nat} :
    removeSite 3 nt u = true ↔ (nt ∈ u ∨ 1 < u.length) := by
  rw [removeSite_eq_true]
  norm_num

lemma removeSite_four {nt : Nat} {u : List Nat} :
    removeSite 4 nt u = true ↔ (nt ∈ u ∨ 1 < u.length ∨ ∃ x ∈ u, 3 < x) := by
  rw [removeSite_eq_true]
  norm_num

lemma removeSite_dedup_iff_spec {m c : Nat} {outCol : List Nat} :
    removeSite m c outCol.dedup = true ↔ specRemoves m c outCol := by
  rw [removeSite_eq_true]
  unfold specRemoves
  have hmem : c ∈ outCol.dedup ↔ c ∈ outCol := List.mem_dedup
  have hgt : (∃ x ∈ outCol.dedup, 3 < x) ↔ ∃ x ∈ outCol, 4 ≤ x := by
    constructor
    · rintro ⟨x, hx, h3⟩
      exact ⟨x, List.mem_dedup.1 hx, h3⟩
    · rintro ⟨x, hx, h4⟩
      exact ⟨x, List.mem_dedup.2 hx, h4⟩
  rw [hmem, hgt, one_lt_dedup_length]

lemma mem_rmSites {aln : List (List Nat)} {cand : List (Nat × Nat)}
    {outgr : List Nat} {m s : Nat} :
    s ∈ rmSites aln cand outgr m ↔
      ∃ c, (s, c) ∈ cand ∧ removeSite m c ((colVals aln outgr s).dedup) = true := by
  unfold rmSites
  rw [List.mem_filterMap]
  constructor
  · rintro ⟨sc, hsc, hf⟩
    split_ifs at hf with hr
    · have h1 : sc.1 = s := by simpa using hf
      refine ⟨sc.2, ?_, ?_⟩
      · rw [← h1, Prod.mk.eta]
        exact hsc
      · rw [← h1]
        exact hr
  · rintro ⟨c, hmem, hr⟩
    exact ⟨(s, c), hmem, by simp [hr]⟩

lemma reportFor_eq (aln : List (List Nat)) (ingr outgr : List Nat)
    (numSite method : Nat) (refPos : List Nat) (refSq : List Char) :
    reportFor aln ingr outgr numSite method refPos refSq =
      (List.mapM
        (lineFor refPos refSq
          (surviving aln (candidates aln ingr numSite) outgr method))
        (List.insertionSort (fun a b => a ≤ b)
          ((surviving aln (candidates aln ingr numSite) outgr
            method).map Prod.fst))).map
        (fun lines =>
          toString (surviving aln (candidates aln ingr numSite) outgr
            method).length :: lines) := rfl

lemma candidates_pairwise {aln : List (List Nat)} {ingr : List Nat}
    {numSite : Nat} :
    List.Pairwise (fun a b : Nat × Nat => a.1 < b.1)
      (candidates aln ingr numSite) := by
  unfold candidates
  rw [List.pairwise_filterMap]
  refine (List.pairwise_lt_range numSite).imp ?_
  intro a b hab x hx y hy
  rcases Option.map_eq_some'.1 hx with ⟨c, _, rfl⟩
  rcases Option.map_eq_some'.1 hy with ⟨c', _, rfl⟩
  exact hab

lemma surviving_pairwise {aln : List (List Nat)} {ingr outgr : List Nat}
    {numSite method : Nat} :
    List.Pairwise (fun a b : Nat × Nat => a.1 < b.1)
      (surviving aln (candidates aln ingr numSite) outgr method) :=
  List.Pairwise.sublist (List.filter_sublist _) candidates_pairwise

lemma mem_surviving_mem_candidates {aln : List (List Nat)} {ingr outgr : List Nat}
    {numSite method : Nat} {sc : Nat × Nat}
    (h : sc ∈ surviving aln (candidates aln ingr numSite) outgr method) :
    sc ∈ candidates aln ingr numSite :=
  (List.mem_filter.1 h).1

lemma lookup_eq_some_of_nodup {l : List (Nat × Nat)} {s c : Nat}
    (hnd : (l.map Prod.fst).Nodup) (h : (s, c) ∈ l) :
    List.lookup s l = some c := by
  induction l with
  | nil => simp at h
  | cons p t ih =>
    rw [List.map_cons, List.nodup_cons] at hnd
    rcases p with ⟨k, v⟩
    rcases List.mem_cons.1 h with h1 | h1
    · rw [← h1]
      simp
    · have hne : s ≠ k := by
        intro he
        subst he
        exact hnd.1 (List.mem_map.2 ⟨(s, c), h1, rfl⟩)
      have hb : (s == k) = false := beq_eq_false_iff_ne.2 hne
      rw [List.lookup_cons, hb]
      exact ih hnd.2 h1

lemma lookup_mem {l : List (Nat × Nat)} {s c : Nat}
    (h : List.lookup s l = some c) : (s, c) ∈ l := by
  rcases List.lookup_eq_some_iff.1 h with ⟨l₁, l₂, rfl, _⟩
  simp

lemma mapM_option_eq_map {α β : Type} (f : α → Option β) (g : α → β)
    (l : List α) (h : ∀ a ∈ l, f a = some (g a)) :
    l.mapM f = some (l.map g) := by
  induction l with
  | nil => rfl
  | cons a t ih =>
    rw [List.mapM_cons, h a (List.mem_cons_self a t),
      ih (fun x hx => h x (List.mem_cons_of_mem a hx))]
    rfl

lemma mapM_option_some_mem {α β : Type} {f : α → Option β} {l : List α}
    {out : List β} (h : l.mapM f = some out) :
    ∀ b ∈ out, ∃ a ∈ l, f a = some b := by
  induction l generalizing out with
  | nil =>
    rw [List.mapM_nil] at h
    obtain rfl : ([] : List β) = out := by simpa using h
    simp
  | cons a t ih =>
    rw [List.mapM_cons] at h
    rcases hfa : f a with _ | b0 <;> rw [hfa] at h
    · simp at h
    · rcases hmt : t.mapM f with _ | out' <;> rw [hmt] at h
      · simp at h
      · obtain rfl : b0 :: out' = out := by simpa using h
        intro b hb
        rcases List.mem_cons.1 hb with h1 | h1
        · exact ⟨a, List.mem_cons_self a t, by rw [hfa, h1]⟩
        · rcases ih hmt b h1 with ⟨a', ha', hfa'⟩
          exact ⟨a', List.mem_cons_of_mem a ha', hfa'⟩

lemma int2nt_lt_four {c : Nat} (h : c < 4) :
    ∃ g, int2nt c = some g ∧ g ∈ (['T', 'C', 'A', 'G'] : List Char) := by
  interval_cases c
  · exact ⟨'T', rfl, by decide⟩
  · exact ⟨'C', rfl, by decide⟩
  · exact ⟨'A', rfl, by decide⟩
  · exact ⟨'G', rfl, by decide⟩

lemma lineFor_eq_some {refPos : List Nat} {refSq : List Char}
    {count : List (Nat × Nat)} {sc : Nat × Nat}
    (hnd : (count.map Prod.fst).Nodup) (hmem : sc ∈ count)
    (hc4 : sc.2 < 4) (h1 : sc.1 < refPos.length)
    (h2 : 1 ≤ refPos.getD sc.1 0) (h3 : refPos.getD sc.1 0 - 1 < refSq.length) :
    ∃ p r g, refPos.get? sc.1 = some p ∧ refCharAt refSq p = some r ∧
      int2nt sc.2 = some g ∧
      lineFor refPos refSq count sc.1 =
        some (toString p ++ " " ++ r.toString ++ "/" ++ g.toString) := by
  rcases hp : refPos.get? sc.1 with _ | p
  · rw [List.get?_eq_none] at hp
    omega
  · have hpd : refPos.getD sc.1 0 = p := by
      rw [List.getD_eq_getD_get?, hp]
      rfl
    have hr : refCharAt refSq p = some (refSq.get ⟨p - 1, by rw [← hpd]; exact h3⟩) := by
      unfold refCharAt
      rw [if_neg (by omega : ¬ p = 0)]
      exact List.get?_eq_get _
    have hlk : List.lookup sc.1 count = some sc.2 :=
      lookup_eq_some_of_nodup hnd (by rw [Prod.mk.eta]; exact hmem)
    rcases int2nt_lt_four hc4 with ⟨g, hg, _⟩
    refine ⟨p, _, g, rfl, hr, hg, ?_⟩
    unfold lineFor
    rw [hp, Option.some_bind, hr, Option.some_bind, hlk, Option.some_bind, hg]
    rfl

/-! Claim theorems. -/

/-- C8: for every symbol in the seven-symbol alphabet, decoding the encoding
returns the symbol; the encoding is T→0 C→1 A→2 G→3 gap→4 N→5 ?→6; and every
character outside the alphabet fails to encode (KeyError, modelled as none)
rather than producing a code. -/
theorem codec_round_trip :
    (∀ c ∈ (['T', 'C', 'A', 'G', '-', 'N', '?'] : List Char),
      (nt2int c).bind int2nt = some c) ∧
    (nt2int 'T' = some 0 ∧ nt2int 'C' = some 1 ∧ nt2int 'A' = some 2 ∧
     nt2int 'G' = some 3 ∧ nt2int '-' = some 4 ∧ nt2int 'N' = some 5 ∧
     nt2int '?' = some 6) ∧
    (∀ c : Char, c ∉ (['T', 'C', 'A', 'G', '-', 'N', '?'] : List Char) →
      nt2int c = none) := by
  refine ⟨by decide, by decide, ?_⟩
  intro c hc
  simp only [List.mem_cons, List.not_mem_nil, or_false, not_or] at hc
  obtain ⟨h1, h2, h3, h4, h5, h6, h7⟩ := hc
  unfold nt2int
  rw [if_neg h1, if_neg h2, if_neg h3, if_neg h4, if_neg h5, if_neg h6, if_neg h7]

/-- Witness for C8 at the concrete symbols A (inside) and X (outside). -/
theorem codec_round_trip_witness :
    (nt2int 'A').bind int2nt = some 'A' ∧ nt2int 'X' = none :=
  ⟨codec_round_trip.1 'A' (by decide), codec_round_trip.2.2 'X' (by decide)⟩

/-- C7: each argument-check failure does abort the run before any group
output is written, but not with the descriptive message of the claim: the
source calls sys.exit without ever importing sys, so every path-check or
method-check failure raises NameError on the name sys instead of exiting
with its ERROR message.  Only the reference-sequence-count check (a bare
assert) produces its descriptive message. -/
theorem argument_checks_raise_nameerror :
    checkArgs false true true true 1 = Except.error (PyExcept.nameError "sys") ∧
    checkArgs true false true true 1 = Except.error (PyExcept.nameError "sys") ∧
    checkArgs true true false true 1 = Except.error (PyExcept.nameError "sys") ∧
    checkArgs true true true false 1 = Except.error (PyExcept.nameError "sys") ∧
    checkArgs true true true true 7 = Except.error (PyExcept.nameError "sys") ∧
    checkArgs true true true true 1 = Except.ok () ∧
    getRefSqCheck ["chr1", "chr2"] =
      Except.error (PyExcept.assertionError
        "error: reference file contains more than one sequence") ∧
    getRefSqCheck ["chr1"] = Except.ok () :=
  ⟨rfl, rfl, rfl, rfl, rfl, rfl, rfl, rfl⟩

/-- C3: for any fixed candidate table and out-group, the removal sets are
monotone across methods: Method 1 ⊆ Method 2, Method 1 ⊆ Method 3 ⊆ Method 4,
Method 2 ⊆ Method 4. -/
theorem exclusivity_monotonicity (aln : List (List Nat)) (cand : List (Nat × Nat))
    (outgr : List Nat) :
    rmSites aln cand outgr 1 ⊆ rmSites aln cand outgr 2 ∧
    rmSites aln cand outgr 1 ⊆ rmSites aln cand outgr 3 ∧
    rmSites aln cand outgr 3 ⊆ rmSites aln cand outgr 4 ∧
    rmSites aln cand outgr 2 ⊆ rmSites aln cand outgr 4 := by
  have key : ∀ m m' : Nat,
      (∀ nt u, removeSite m nt u = true → removeSite m' nt u = true) →
      rmSites aln cand outgr m ⊆ rmSites aln cand outgr m' := by
    intro m m' h s hs
    rcases mem_rmSites.1 hs with ⟨c, hmem, hr⟩
    exact mem_rmSites.2 ⟨c, hmem, h _ _ hr⟩
  refine ⟨key 1 2 ?_, key 1 3 ?_, key 3 4 ?_, key 2 4 ?_⟩ <;> intro nt u h
  · rw [removeSite_one] at h
    rw [removeSite_two]
    exact Or.inl h
  · rw [removeSite_one] at h
    rw [removeSite_three]
    exact Or.inl h
  · rw [removeSite_three] at h
    rw [removeSite_four]
    tauto
  · rw [removeSite_two] at h
    rw [removeSite_four]
    tauto

/-- Witness for C3: a site removed by method 1 on a concrete input is also
removed by method 2. -/
theorem exclusivity_monotonicity_witness :
    (0 : Nat) ∈ rmSites [[2], [2]] [(0, 2)] [1] 2 :=
  (exclusivity_monotonicity [[2], [2]] [(0, 2)] [1]).1 (by decide)

/-- C1: a candidate column s with in-group consensus code c is deleted from
the table by the exclusivity filter exactly when the selected method's
condition over the distinct out-group codes at s holds (method 1: c recurs;
method 2: c recurs or some code ≥ 4; method 3: c recurs or more than one
distinct code; method 4: any of these), and the filter marks no column that
is not a candidate. -/
theorem exclusivity_filter_matches_spec (aln : List (List Nat))
    (ingr outgr : List Nat) (numSite method : Nat) :
    (∀ s c, (s, c) ∈ candidates aln ingr numSite →
      ((s, c) ∉ surviving aln (candidates aln ingr numSite) outgr method ↔
        specRemoves method c (colVals aln outgr s))) ∧
    (∀ s, s ∈ rmSites aln (candidates aln ingr numSite) outgr method →
      ∃ c, (s, c) ∈ candidates aln ingr numSite) := by
  constructor
  · intro s c hmem
    have hsurv : (s, c) ∈ surviving aln (candidates aln ingr numSite) outgr method ↔
        (s, c) ∈ candidates aln ingr numSite ∧
          s ∉ rmSites aln (candidates aln ingr numSite) outgr method := by
      unfold surviving
      rw [List.mem_filter]
      simp
    constructor
    · intro hns
      have hs : s ∈ rmSites aln (candidates aln ingr numSite) outgr method := by
        by_contra hn
        exact hns (hsurv.2 ⟨hmem, hn⟩)
      rcases mem_rmSites.1 hs with ⟨c', hc', hr⟩
      have hcc : c' = c := candidates_val_unique hc' hmem
      subst hcc
      exact removeSite_dedup_iff_spec.1 hr
    · intro hspec hsv
      exact (hsurv.1 hsv).2
        (mem_rmSites.2 ⟨c, hmem, removeSite_dedup_iff_spec.2 hspec⟩)
  · intro s hs
    rcases mem_rmSites.1 hs with ⟨c, hc, _⟩
    exact ⟨c, hc⟩

/-- Witness for C1 on the worked example of the design document: 4 samples ×
3 columns, in-group rows 0 and 1, method 1; column 1 (all-A out-group) is
removed because its in-group code 2 recurs in the out-group. -/
theorem exclusivity_filter_matches_spec_witness :
    (1, 2) ∉ surviving [[2, 2, 2], [2, 2, 2], [3, 2, 2], [3, 2, 3]]
        (candidates [[2, 2, 2], [2, 2, 2], [3, 2, 2], [3, 2, 3]] [0, 1] 3)
        [2, 3] 1 ↔
      specRemoves 1 2 (colVals [[2, 2, 2], [2, 2, 2], [3, 2, 2], [3, 2, 3]] [2, 3] 1) :=
  (exclusivity_filter_matches_spec [[2, 2, 2], [2, 2, 2], [3, 2, 2], [3, 2, 3]]
    [0, 1] [2, 3] 3 1).1 1 2 (by decide)

/-- C2: with a nonempty in-group, the candidate-site table contains column j
with code c iff every in-group row carries the identical code c at j and
c < 4; non-uniform columns and columns uniform in a gap/ambiguity code are
excluded. -/
theorem site_scanner_spec (aln : List (List Nat)) (ingr : List Nat)
    (numSite : Nat) (hne : ingr ≠ []) (j c : Nat) :
    (j, c) ∈ candidates aln ingr numSite ↔
      j < numSite ∧ (∀ i ∈ ingr, entry aln i j = c) ∧ c < 4 := by
  rw [mem_candidates, siteCand_eq_some]
  unfold colVals
  constructor
  · rintro ⟨hj, _, hall, h4⟩
    exact ⟨hj, fun i hi => hall _ (List.mem_map_of_mem _ hi), h4⟩
  · rintro ⟨hj, hall, h4⟩
    refine ⟨hj, ?_, ?_, h4⟩
    · simp only [ne_eq, List.map_eq_nil]
      exact hne
    · intro x hx
      rcases List.mem_map.1 hx with ⟨i, hi, rfl⟩
      exact hall i hi

/-- Witness for C2: on the worked example, column 0 with code 2 is a
candidate for in-group rows 0 and 1. -/
theorem site_scanner_spec_witness :
    (0, 2) ∈ candidates [[2, 2, 2], [2, 2, 2], [3, 2, 2], [3, 2, 3]] [0, 1] 3 ↔
      0 < 3 ∧ (∀ i ∈ ([0, 1] : List Nat),
        entry [[2, 2, 2], [2, 2, 2], [3, 2, 2], [3, 2, 3]] i 0 = 2) ∧ 2 < 4 :=
  site_scanner_spec [[2, 2, 2], [2, 2, 2], [3, 2, 2], [3, 2, 3]] [0, 1] 3
    (by decide) 0 2

/-- C9: for any group, the in-group and out-group index lists cover exactly
the row indices 0..S-1, and no index lies in both. -/
theorem partition_completeness (sqName members : List String) :
    (∀ i, (i ∈ ingrInd sqName members ∨
           i ∈ outgrInd sqName.length (ingrInd sqName members)) ↔
      i < sqName.length) ∧
    ∀ i, ¬ (i ∈ ingrInd sqName members ∧
            i ∈ outgrInd sqName.length (ingrInd sqName members)) := by
  have hsub : ∀ i ∈ ingrInd sqName members, i < sqName.length := by
    intro i hi
    unfold ingrInd at hi
    rcases List.mem_filterMap.1 hi with ⟨x, hx, hf⟩
    split_ifs at hf with hmem
    have hidx : sqName.indexOf x = i := by simpa using hf
    rw [← hidx]
    exact List.indexOf_lt_length.2 hmem
  have hout : ∀ i, i ∈ outgrInd sqName.length (ingrInd sqName members) ↔
      i < sqName.length ∧ i ∉ ingrInd sqName members := by
    intro i
    unfold outgrInd
    rw [List.mem_filter]
    simp [List.mem_range]
  constructor
  · intro i
    constructor
    · rintro (h | h)
      · exact hsub i h
      · exact ((hout i).1 h).1
    · intro h
      by_cases hin : i ∈ ingrInd sqName members
      · exact Or.inl hin
      · exact Or.inr ((hout i).2 ⟨h, hin⟩)
  · rintro i ⟨h1, h2⟩
    exact ((hout i).1 h2).2 h1

/-- Witness for C9 at a concrete group. -/
theorem partition_completeness_witness :
    (0 ∈ ingrInd ["a", "b"] ["b"] ∨
      0 ∈ outgrInd (["a", "b"] : List String).length (ingrInd ["a", "b"] ["b"])) ↔
      0 < (["a", "b"] : List String).length :=
  (partition_completeness ["a", "b"] ["b"]).1 0

/-- C4 as stated is false: with alignment samples ["a", "b"] and a group file
listing ["b", "a"], the in-group indices come out as [1, 0] — group-file
order, not ascending alignment row order. -/
theorem group_partitioner_order_counterexample :
    ingrInd ["a", "b"] ["b", "a"] = [1, 0] ∧
    ¬ List.Sorted (· ≤ ·) (ingrInd ["a", "b"] ["b", "a"]) := by
  constructor
  · decide
  · decide

/-- C4 amended: the in-group indices are exactly the rows whose sample name
occurs in the member list, produced in group-file order (member names with
no matching row are silently skipped, no error is possible), and the
out-group indices are the complement. -/
theorem group_partitioner_amended (sqName members : List String)
    (hnd : sqName.Nodup) :
    (∀ i, i ∈ ingrInd sqName members ↔ ∃ x ∈ members, sqName.get? i = some x) ∧
    ingrInd sqName members =
      (members.filter (fun x => decide (x ∈ sqName))).map
        (fun x => sqName.indexOf x) ∧
    (∀ i, i ∈ outgrInd sqName.length (ingrInd sqName members) ↔
      i < sqName.length ∧ i ∉ ingrInd sqName members) := by
  refine ⟨?_, ?_, ?_⟩
  · intro i
    constructor
    · intro hi
      unfold ingrInd at hi
      rcases List.mem_filterMap.1 hi with ⟨x, hx, hf⟩
      split_ifs at hf with hmem
      have hidx : sqName.indexOf x = i := by simpa using hf
      refine ⟨x, hx, ?_⟩
      rw [← hidx]
      exact List.indexOf_get? hmem
    · rintro ⟨x, hx, hget⟩
      have hmem : x ∈ sqName := List.get?_mem hget
      have hlt : i < sqName.length := (List.get?_eq_some.1 hget).1
      have hidx : sqName.indexOf x = i := by
        have h1 : sqName.get? (sqName.indexOf x) = some x := List.indexOf_get? hmem
        have h2 : sqName.get? (sqName.indexOf x) = sqName.get? i := by rw [h1, hget]
        exact List.get?_inj (List.indexOf_lt_length.2 hmem) hnd h2
      unfold ingrInd
      exact List.mem_filterMap.2 ⟨x, hx, by rw [if_pos hmem, hidx]⟩
  · unfold ingrInd
    induction members with
    | nil => rfl
    | cons y ys ih =>
      rw [List.filterMap_cons, List.filter_cons]
      by_cases hy : y ∈ sqName
      · rw [if_pos hy]
        simp [hy, ih]
      · rw [if_neg hy]
        simp [hy, ih]
  · intro i
    unfold outgrInd
    rw [List.mem_filter]
    simp [List.mem_range]

/-- Witness for C4's amended statement at a concrete partition. -/
theorem group_partitioner_amended_witness :
    (1 ∈ ingrInd ["a", "b", "c"] ["b", "z"] ↔
      ∃ x ∈ (["b", "z"] : List String), (["a", "b", "c"] : List String).get? 1 = some x) :=
  (group_partitioner_amended ["a", "b", "c"] ["b", "z"] (by decide)).1 1

/-- C5: when every surviving site's reference position is defined, ≥ 1 and
within the reference sequence, the written report is the survivor count
followed by exactly one line per surviving site, in ascending column order,
each line being the 1-based reference position, the reference character at
that position, a slash-separated pair with the decoded in-group code. -/
theorem coordinate_mapper_report (aln : List (List Nat)) (ingr outgr : List Nat)
    (numSite method : Nat) (refPos : List Nat) (refSq : List Char)
    (h : ∀ sc ∈ surviving aln (candidates aln ingr numSite) outgr method,
      sc.1 < refPos.length ∧ 1 ≤ refPos.getD sc.1 0 ∧
        refPos.getD sc.1 0 - 1 < refSq.length) :
    ∃ lines,
      reportFor aln ingr outgr numSite method refPos refSq =
        some (toString (surviving aln (candidates aln ingr numSite) outgr
          method).length :: lines) ∧
      lines.length =
        (surviving aln (candidates aln ingr numSite) outgr method).length ∧
      List.Sorted (· < ·)
        ((surviving aln (candidates aln ingr numSite) outgr method).map Prod.fst) ∧
      ∀ i sc, (surviving aln (candidates aln ingr numSite) outgr
          method).get? i = some sc →
        ∃ p r g, refPos.get? sc.1 = some p ∧ refCharAt refSq p = some r ∧
          int2nt sc.2 = some g ∧
          lines.get? i = some (toString p ++ " " ++ r.toString ++ "/" ++ g.toString) := by
  set count := surviving aln (candidates aln ingr numSite) outgr method with hcount
  have hpw : List.Pairwise (fun a b : Nat × Nat => a.1 < b.1) count :=
    surviving_pairwise
  have hkeys_sorted : List.Sorted (fun a b : Nat => a < b) (count.map Prod.fst) :=
    List.pairwise_map.2 hpw
  have hkeys_nodup : (count.map Prod.fst).Nodup :=
    hkeys_sorted.imp (fun hlt => Nat.ne_of_lt hlt)
  have hins : List.insertionSort (fun a b => a ≤ b) (count.map Prod.fst) =
      count.map Prod.fst :=
    List.Sorted.insertionSort_eq (hkeys_sorted.imp (fun hlt => Nat.le_of_lt hlt))
  have hval4 : ∀ sc ∈ count, sc.2 < 4 := by
    intro sc hsc
    have := mem_surviving_mem_candidates hsc
    rw [← Prod.mk.eta (p := sc)] at this
    exact candidates_val_lt this
  have hline : ∀ sc ∈ count, ∃ p r g, refPos.get? sc.1 = some p ∧
      refCharAt refSq p = some r ∧ int2nt sc.2 = some g ∧
      lineFor refPos refSq count sc.1 =
        some (toString p ++ " " ++ r.toString ++ "/" ++ g.toString) := by
    intro sc hsc
    obtain ⟨h1, h2, h3⟩ := h sc hsc
    exact lineFor_eq_some hkeys_nodup hsc (hval4 sc hsc) h1 h2 h3
  have hlineg : ∀ x ∈ count.map Prod.fst,
      lineFor refPos refSq count x =
        some ((lineFor refPos refSq count x).getD "") := by
    intro x hx
    rcases List.mem_map.1 hx with ⟨sc, hsc, rfl⟩
    rcases hline sc hsc with ⟨p, r, g, _, _, _, hl⟩
    rw [hl]
    rfl
  have hmapM : (count.map Prod.fst).mapM (lineFor refPos refSq count) =
      some ((count.map Prod.fst).map
        (fun x => (lineFor refPos refSq count x).getD "")) :=
    mapM_option_eq_map _ _ _ hlineg
  refine ⟨(count.map Prod.fst).map
    (fun x => (lineFor refPos refSq count x).getD ""), ?_, ?_, hkeys_sorted, ?_⟩
  · rw [reportFor_eq, ← hcount, hins, hmapM]
    rfl
  · simp
  · intro i sc hget
    have hsc : sc ∈ count := List.get?_mem hget
    rcases hline sc hsc with ⟨p, r, g, hp, hr, hg, hl⟩
    refine ⟨p, r, g, hp, hr, hg, ?_⟩
    rw [List.get?_map, List.get?_map, hget]
    simp [hl]

/-- Witness for C5 on the worked example: 4 samples × 3 columns, in-group
rows 0 and 1, method 1, reference positions [10, 11, 12]. -/
theorem coordinate_mapper_report_witness :
    ∃ lines,
      reportFor [[2, 2, 2], [2, 2, 2], [3, 2, 2], [3, 2, 3]] [0, 1] [2, 3] 3 1
          [10, 11, 12] ['C', 'C', 'C', 'C', 'C', 'C', 'C', 'C', 'C', 'A', 'A', 'A'] =
        some (toString (surviving [[2, 2, 2], [2, 2, 2], [3, 2, 2], [3, 2, 3]]
          (candidates [[2, 2, 2], [2, 2, 2], [3, 2, 2], [3, 2, 3]] [0, 1] 3)
          [2, 3] 1).length :: lines) ∧
      lines.length =
        (surviving [[2, 2, 2], [2, 2, 2], [3, 2, 2], [3, 2, 3]]
          (candidates [[2, 2, 2], [2, 2, 2], [3, 2, 2], [3, 2, 3]] [0, 1] 3)
          [2, 3] 1).length ∧
      List.Sorted (· < ·)
        ((surviving [[2, 2, 2], [2, 2, 2], [3, 2, 2], [3, 2, 3]]
          (candidates [[2, 2, 2], [2, 2, 2], [3, 2, 2], [3, 2, 3]] [0, 1] 3)
          [2, 3] 1).map Prod.fst) ∧
      ∀ i sc, (surviving [[2, 2, 2], [2, 2, 2], [3, 2, 2], [3, 2, 3]]
          (candidates [[2, 2, 2], [2, 2, 2], [3, 2, 2], [3, 2, 3]] [0, 1] 3)
          [2, 3] 1).get? i = some sc →
        ∃ p r g, (([10, 11, 12] : List Nat)).get? sc.1 = some p ∧
          refCharAt ['C', 'C', 'C', 'C', 'C', 'C', 'C', 'C', 'C', 'A', 'A', 'A'] p = some r ∧
          int2nt sc.2 = some g ∧
          lines.get? i = some (toString p ++ " " ++ r.toString ++ "/" ++ g.toString) :=
  coordinate_mapper_report [[2, 2, 2], [2, 2, 2], [3, 2, 2], [3, 2, 3]] [0, 1]
    [2, 3] 3 1 [10, 11, 12] ['C', 'C', 'C', 'C', 'C', 'C', 'C', 'C', 'C', 'A', 'A', 'A']
    (by decide)

/-- C6: a group none of whose member names occurs in the alignment yields an
empty in-group, and its report is written (no exception) with a single
header line 0 and no site lines. -/
theorem empty_group_report (aln : List (List Nat)) (sqName members : List String)
    (numSite method : Nat) (refPos : List Nat) (refSq : List Char)
    (h : ∀ x ∈ members, x ∉ sqName) :
    ingrInd sqName members = [] ∧
    processGroup aln sqName numSite members refPos refSq method = some ["0"] := by
  have hing : ingrInd sqName members = [] := by
    unfold ingrInd
    rw [List.filterMap_eq_nil]
    intro x hx
    rw [if_neg (h x hx)]
  refine ⟨hing, ?_⟩
  unfold processGroup
  rw [hing]
  have hcand : candidates aln [] numSite = [] := by
    unfold candidates
    rw [List.filterMap_eq_nil]
    intro j hj
    rfl
  rw [reportFor_eq, hcand]
  show some [toString (List.length ([] : List (Nat × Nat)))] = some ["0"]
  decide

/-- Witness for C6: a singleton alignment and a group whose only member is
absent. -/
theorem empty_group_report_witness :
    ingrInd ["a"] ["z"] = [] ∧
    processGroup [[0]] ["a"] 1 ["z"] [1] ['T'] 1 = some ["0"] :=
  empty_group_report [[0]] ["a"] ["z"] 1 1 [1] ['T'] (by decide)

/-- C10: every site line of a successfully written report carries a group
character drawn from T, C, A, G — never a gap, N or ?: table codes are
always < 4, the filter only deletes entries, and the mapper decodes the
stored code unchanged. -/
theorem report_group_char_definite (aln : List (List Nat)) (ingr outgr : List Nat)
    (numSite method : Nat) (refPos : List Nat) (refSq : List Char)
    (hdr : String) (lines : List String)
    (h : reportFor aln ingr outgr numSite method refPos refSq = some (hdr :: lines)) :
    ∀ l ∈ lines, ∃ pre g, l = pre ++ "/" ++ g.toString ∧
      g ∈ (['T', 'C', 'A', 'G'] : List Char) := by
  rw [reportFor_eq] at h
  rcases hm : List.mapM
      (lineFor refPos refSq
        (surviving aln (candidates aln ingr numSite) outgr method))
      (List.insertionSort (fun a b => a ≤ b)
        ((surviving aln (candidates aln ingr numSite) outgr method).map
          Prod.fst)) with _ | L <;>
    rw [hm] at h
  · simp at h
  · simp only [Option.map_some', Option.some.injEq, List.cons.injEq] at h
    obtain ⟨-, rfl⟩ := h
    intro l hl
    rcases mapM_option_some_mem hm l hl with ⟨x, -, hlx⟩
    unfold lineFor at hlx
    rcases hp : refPos.get? x with _ | p <;> rw [hp] at hlx
    · simp at hlx
    rw [Option.some_bind] at hlx
    rcases hr : refCharAt refSq p with _ | r <;> rw [hr] at hlx
    · simp at hlx
    rw [Option.some_bind] at hlx
    rcases hlk : List.lookup x (surviving aln (candidates aln ingr numSite)
        outgr method) with _ | c <;> rw [hlk] at hlx
    · simp at hlx
    rw [Option.some_bind] at hlx
    have hc4 : c < 4 := by
      have hmem := lookup_mem hlk
      exact candidates_val_lt (mem_surviving_mem_candidates hmem)
    rcases int2nt_lt_four hc4 with ⟨g, hg, hgin⟩
    rw [hg] at hlx
    simp only [Option.map_some', Option.some.injEq] at hlx
    exact ⟨toString p ++ " " ++ r.toString, g, hlx.symm, hgin⟩

/-- Witness for C10 on the worked example, whose report is
["1", "10 A/A"]. -/
theorem report_group_char_definite_witness :
    ∃ pre g, "10 A/A" = pre ++ "/" ++ g.toString ∧
      g ∈ (['T', 'C', 'A', 'G'] : List Char) :=
  report_group_char_definite [[2, 2, 2], [2, 2, 2], [3, 2, 2], [3, 2, 3]] [0, 1]
    [2, 3] 3 1 [10, 11, 12] ['C', 'C', 'C', 'C', 'C', 'C', 'C', 'C', 'C', 'A', 'A', 'A']
    "1" ["10 A/A"] (by decide) "10 A/A" (by decide)

end GroupSpecificVariants
